import Mathlib

/-!
# Verification of the paste-to-nearest-assets plugin (src/main.ts)

Shallow embedding of the plugin's logic in Lean 4.  The plugin's own code
(folder walk, assets-folder fallback creation, unique-path search, base-name
sanitization, MIME-extension map, paste orchestration, naming modal) is
translated function by function from `src/main.ts`.  Host (Obsidian /
CodeMirror) facilities that the plugin calls — `normalizePath`, the vault
lookup/create API, and the editor selection/scroll API — are modelled as
small explicit functions, with the vault as a list of `(path, isFolder)`
entries and the editor as a document of lines together with a selection and
a scroll offset.
-/

namespace PasteAssets

/-! ## Constants (src/main.ts lines 15-16) -/

def TOP_FOLDER_SCOPE : String := "Uni Notes"

def ASSETS_DIR_NAME : String := "assets"

/-! ## Model of the host `normalizePath`

Obsidian's `normalizePath` cleans up path separators: every maximal run of
`/` or `\` becomes a single `/`, and leading and trailing slashes are
removed.  (Unicode NFC / non-breaking-space normalization performed by the
real host is outside this model.) -/

def isSepChar (c : Char) : Bool := c = '/' || c = '\\'

/-- Collapse every run of separator characters to a single `'/'`.  The
boolean argument records whether the previous character was a separator. -/
def collapseSeps : Bool → List Char → List Char
  | _, [] => []
  | prev, c :: cs =>
    if isSepChar c then
      if prev then collapseSeps true cs else '/' :: collapseSeps true cs
    else c :: collapseSeps false cs

def dropLeadSlash (l : List Char) : List Char := l.dropWhile (fun c => c = '/')

def trimSlashes (l : List Char) : List Char :=
  (dropLeadSlash (dropLeadSlash l).reverse).reverse

def normalizePath (s : String) : String :=
  ⟨trimSlashes (collapseSeps false s.data)⟩

/-! ### Plain character-list versions of the JavaScript string primitives

(The Lean core versions of `toLower`, `startsWith` and `endsWith` are
implemented on byte positions by well-founded recursion, which the kernel
cannot evaluate; these list versions have the same meaning.) -/

/-- `s.toLowerCase()` (ASCII model). -/
def strToLower (s : String) : String := ⟨s.data.map Char.toLower⟩

/-- `s.startsWith(p)`. -/
def strStartsWith (s p : String) : Bool := p.data.isPrefixOf s.data

/-- `s.endsWith(p)`. -/
def strEndsWith (s p : String) : Bool := p.data.isSuffixOf s.data

/-- `[...].filter(Boolean).join("/")` over strings: drop the empty parts and
interleave `"/"`. -/
def joinParts (parts : List String) : String :=
  match parts.filter (fun p => p ≠ "") with
  | [] => ""
  | p :: ps => ps.foldl (fun acc q => acc ++ "/" ++ q) p

/-! ## Folder tree model

`findNearestAssetsFolder` (src/main.ts lines 157-169) walks from the start
folder up the `parent` chain, looking at the immediate children of each
folder.  We model the walked chain as the explicit list of ancestors
`[start, start.parent, …, root]`; each folder carries its path and its
children, a child being a name, a full path and a folder/file flag. -/

structure MEntry where
  name : String
  path : String
  isFolder : Bool
deriving DecidableEq, Repr

structure MFolder where
  path : String
  children : List MEntry
deriving DecidableEq, Repr

/-- The predicate of the `children.find` callback at lines 160-164:
`c instanceof TFolder && c.name.toLowerCase() === ASSETS_DIR_NAME`. -/
def isAssetsChild (c : MEntry) : Bool :=
  c.isFolder && strToLower c.name == ASSETS_DIR_NAME

/-- `findNearestAssetsFolder` (lines 157-169), the `while (cur)` loop over
the ancestor chain: return the first assets child of the first ancestor
that has one. -/
def findNearestAssetsFolder : List MFolder → Option MEntry
  | [] => none
  | f :: rest =>
    match f.children.find? isAssetsChild with
    | some child => some child
    | none => findNearestAssetsFolder rest

/-- A folder has an assets child iff `children.find` succeeds on it. -/
def hasAssetsChild (f : MFolder) : Bool :=
  f.children.any isAssetsChild

/-! ## Vault model

The vault (host file-system API) is a list of entries, each a path together
with a folder flag (`true` = folder, `false` = file).
`getAbstractFileByPath` is lookup by path; `createFolder` / `createBinary`
prepend a new entry. -/

structure Vault where
  entries : List (String × Bool)
deriving DecidableEq, Repr

/-- `app.vault.getAbstractFileByPath(path)`: `some isFolder` when an entry
exists at `path`, `none` otherwise. -/
def Vault.lookup (v : Vault) (path : String) : Option Bool :=
  (v.entries.find? (fun e => e.1 == path)).map (fun e => e.2)

/-- `app.vault.createFolder(path)`. -/
def Vault.createFolder (v : Vault) (path : String) : Vault :=
  ⟨(path, true) :: v.entries⟩

/-- `app.vault.createBinary(path, data)` (the bytes are irrelevant to the
claims; only the created entry is recorded). -/
def Vault.createBinary (v : Vault) (path : String) : Vault :=
  ⟨(path, false) :: v.entries⟩

/-- `this.exists(path)` (src/main.ts lines 246-250): truthiness of
`getAbstractFileByPath`. -/
def Vault.existsPath (v : Vault) (path : String) : Bool :=
  (v.lookup path).isSome

/-- The path computed at src/main.ts lines 172-176:
`normalizePath([folder.path === "/" ? "" : folder.path, ASSETS_DIR_NAME].filter(Boolean).join("/"))`. -/
def assetsPathUnder (folderPath : String) : String :=
  normalizePath (joinParts [if folderPath = "/" then "" else folderPath, ASSETS_DIR_NAME])

/-- Result of `ensureAssetsUnder`: the returned folder path (or `none` on
failure), the vault afterwards, and the notice raised, if any. -/
structure EnsureResult where
  result : Option String
  vault : Vault
  notice : Option String
deriving DecidableEq, Repr

/-- The notice text raised at src/main.ts lines 180-183. -/
def nonFolderNotice (path : String) : String :=
  "A non-folder named '" ++ ASSETS_DIR_NAME ++ "' exists at " ++ path ++ "."

/-- `ensureAssetsUnder` (src/main.ts lines 171-188): look the assets path up;
an existing folder is returned as is; an existing non-folder raises a notice
and fails; otherwise the folder is created and returned. -/
def ensureAssetsUnder (v : Vault) (folderPath : String) : EnsureResult :=
  match v.lookup (assetsPathUnder folderPath) with
  | some true => ⟨some (assetsPathUnder folderPath), v, none⟩
  | some false => ⟨none, v, some (nonFolderNotice (assetsPathUnder folderPath))⟩
  | none =>
    match (v.createFolder (assetsPathUnder folderPath)).lookup
        (assetsPathUnder folderPath) with
    | some true =>
      ⟨some (assetsPathUnder folderPath),
        v.createFolder (assetsPathUnder folderPath), none⟩
    | _ => ⟨none, v.createFolder (assetsPathUnder folderPath), none⟩

/-! ## Decimal rendering of a counter

JavaScript renders the loop counter `i` in the template literal
`` `${base} ${i}.${ext}` `` as its decimal digits.  `decDigitsFuel` is that
rendering, written with structural fuel (`n + 1` steps always suffice since
the argument is divided by ten each step). -/

def decDigitsFuel : Nat → Nat → List Char
  | 0, _ => []
  | fuel + 1, n =>
    if n < 10 then [Nat.digitChar n]
    else decDigitsFuel fuel (n / 10) ++ [Nat.digitChar (n % 10)]

def decRepr (n : Nat) : String := ⟨decDigitsFuel (n + 1) n⟩

/-! ## `getUniquePath` (src/main.ts lines 225-244) -/

/-- The candidate builder `make(i)` of lines 231-236:
`normalizePath([dir, i === 0 ? base.ext : base i.ext].filter(Boolean).join("/"))`
with `dir = folder.path === "/" ? "" : folder.path`. -/
def makeCandidate (folderPath base ext : String) (i : Nat) : String :=
  let dir := if folderPath = "/" then "" else folderPath
  let name :=
    if i = 0 then base ++ "." ++ ext
    else base ++ " " ++ decRepr i ++ "." ++ ext
  normalizePath (joinParts [dir, name])

/-- The `while (this.exists(candidate))` loop of lines 237-243, with explicit
fuel standing in for the unbounded JavaScript loop.  `getUniquePath_total`
below shows that the fuel chosen in `getUniquePath` never runs out, so the
fuelled loop agrees with the unbounded one. -/
def loopUP (v : Vault) (mk : Nat → String) : Nat → Nat → Option String
  | 0, _ => none
  | fuel + 1, i =>
    if v.existsPath (mk i) then loopUP v mk fuel (i + 1) else some (mk i)

/-- Length of the longest path present in the vault. -/
def maxPathLen (v : Vault) : Nat :=
  v.entries.foldr (fun e m => max e.1.length m) 0

/-- `getUniquePath` (lines 225-244).  The fuel `10 ^ maxPathLen v + 1` is an
upper bound on the number of iterations the JavaScript loop can make: a
candidate with index `≥ 10 ^ maxPathLen v` is longer than every vault path
and hence free. -/
def getUniquePath (v : Vault) (folderPath base ext : String) : Option String :=
  loopUP v (makeCandidate folderPath base ext) (10 ^ maxPathLen v + 1) 0

/-! ## `sanitizeBase` (src/main.ts lines 199-208) -/

/-- The character class of the regex `[\\/:*?"<>|]`. -/
def isIllegalChar (c : Char) : Bool :=
  c = '\\' || c = '/' || c = ':' || c = '*' || c = '?' || c = '\"' ||
  c = '<' || c = '>' || c = '|'

/-- `.replace(/[\\/:*?"<>|]/g, " ")`. -/
def replaceIllegal (l : List Char) : List Char :=
  l.map (fun c => if isIllegalChar c then ' ' else c)

/-- `.replace(/\s+/g, " ")`: every maximal run of whitespace becomes a single
space (ASCII whitespace model of the regex class `\s`). -/
def collapseWs : Bool → List Char → List Char
  | _, [] => []
  | prev, c :: cs =>
    if c.isWhitespace then
      if prev then collapseWs true cs else ' ' :: collapseWs true cs
    else c :: collapseWs false cs

/-- Drop trailing whitespace. -/
def trimWsEnd : List Char → List Char
  | [] => []
  | c :: cs =>
    match trimWsEnd cs with
    | [] => if c.isWhitespace then [] else [c]
    | r => c :: r

/-- `.trim()`: remove whitespace from both ends. -/
def trimWs (l : List Char) : List Char :=
  trimWsEnd (l.dropWhile Char.isWhitespace)

/-- The `cleaned` value of lines 201-204. -/
def cleanedBase (s : String) : String :=
  ⟨trimWs (collapseWs false (replaceIllegal s.data))⟩

/-- The regex test `/^[.]+$/`: nonempty and consisting of dots only. -/
def isAllDots (s : String) : Bool :=
  s ≠ "" && s.data.all (fun c => c = '.')

/-- `sanitizeBase` (lines 199-208): clean the name; an empty or dot-only
result becomes the empty string. -/
def sanitizeBase (s : String) : String :=
  let cleaned := cleanedBase s
  if cleaned = "" || isAllDots cleaned then "" else cleaned

/-- Line 86: `this.sanitizeBase(name) || defaultBase` — JavaScript `||`
falls back exactly when `sanitizeBase` returned the empty string. -/
def safeBaseOf (name defaultBase : String) : String :=
  if sanitizeBase name = "" then defaultBase else sanitizeBase name

/-! ## `getExtFromMime` (src/main.ts lines 210-223) and the extension choice -/

/-- The key-value map at lines 212-221, looked up at line 222
(`map[mime] ?? null`). -/
def getExtFromMime (mime : String) : Option String :=
  if mime = "image/png" then some "png"
  else if mime = "image/jpeg" then some "jpg"
  else if mime = "image/jpg" then some "jpg"
  else if mime = "image/webp" then some "webp"
  else if mime = "image/gif" then some "gif"
  else if mime = "image/svg+xml" then some "svg"
  else if mime = "image/heic" then some "heic"
  else if mime = "image/heif" then some "heif"
  else none

/-- The eight keys of the map. -/
def mappedMimes : List String :=
  ["image/png", "image/jpeg", "image/jpg", "image/webp", "image/gif",
   "image/svg+xml", "image/heic", "image/heif"]

/-- Lines 72-73: `this.getExtFromMime(imageFile.type) ?? "png"`. -/
def chooseExt (mime : String) : String :=
  (getExtFromMime mime).getD "png"

/-! ## `defaultPasteBasename` (src/main.ts lines 190-197) -/

/-- The raw values returned by the JavaScript `Date` getters (`getMonth` is
zero-based; the code adds one). -/
structure DateParts where
  year : Nat
  monthIndex : Nat
  day : Nat
  hours : Nat
  minutes : Nat
  seconds : Nat
deriving DecidableEq, Repr

/-- `n.toString().padStart(2, "0")`. -/
def pad2 (n : Nat) : String :=
  let s := decRepr n
  if s.length < 2 then ⟨List.replicate (2 - s.length) '0' ++ s.data⟩ else s

def defaultPasteBasename (d : DateParts) : String :=
  "Pasted image " ++ decRepr d.year ++ pad2 (d.monthIndex + 1) ++ pad2 d.day ++
    pad2 d.hours ++ pad2 d.minutes ++ pad2 d.seconds

/-- `makeNamePrefix` (lines 143-147). -/
def makeNamePrefix (basename : String) : String :=
  let cleaned := sanitizeBase basename
  if cleaned = "" then "" else cleaned ++ "-"

/-- `isInScope` (lines 149-155). -/
def isInScope (filePath : String) : Bool :=
  if TOP_FOLDER_SCOPE = "" then true
  else
    let scopePre :=
      if strEndsWith TOP_FOLDER_SCOPE "/" then TOP_FOLDER_SCOPE
      else TOP_FOLDER_SCOPE ++ "/"
    strStartsWith filePath scopePre

/-! ## Editor model

The host editor (CodeMirror through Obsidian) holds a document of lines, a
selection given by two line/character positions, and a scroll offset.  The
operations the handler calls — `getCursor`, `getScrollInfo`, `setSelection`,
`replaceSelection`, `setCursor`, `scrollTo` — are modelled as explicit state
updates.  Strings are manipulated as their character lists. -/

structure Pos where
  line : Nat
  ch : Nat
deriving DecidableEq, Repr

/-- JavaScript `text.split("\n")` on a character list: always nonempty, one
entry per newline-separated segment (empty segments included). -/
def splitNl : List Char → List (List Char)
  | [] => [[]]
  | c :: cs =>
    if c = '\n' then [] :: splitNl cs
    else
      match splitNl cs with
      | [] => [[c]]
      | h :: t => (c :: h) :: t

/-- `computeEndPos` (src/main.ts lines 252-263): end position of `text`
inserted at `f` — same line advanced by the first segment's length when the
text is a single line, otherwise the last segment's length on the line
`f.line + (segments - 1)`. -/
def computeEndPos (f : Pos) (text : List Char) : Pos :=
  let lines := splitNl text
  if lines.length = 1 then ⟨f.line, f.ch + (lines.headD []).length⟩
  else ⟨f.line + (lines.length - 1), (lines.getLastD []).length⟩

/-- Append `suffix` to the last element of a nonempty list. -/
def addAfterLast (suffix : List Char) : List (List Char) → List (List Char)
  | [] => []
  | [x] => [x ++ suffix]
  | x :: xs => x :: addAfterLast suffix xs

/-- Glue the inserted segments between the kept prefix of the from-line and
the kept suffix of the to-line. -/
def joinInsert (before after : List Char) : List (List Char) → List (List Char)
  | [] => [before ++ after]
  | [x] => [before ++ x ++ after]
  | x :: xs => (before ++ x) :: addAfterLast after xs

/-- Replace the range `f`-`t` of `doc` with `text` (host `replaceSelection`
semantics): lines before `f.line` and after `t.line` are kept, the prefix of
the from-line up to `f.ch` and the suffix of the to-line from `t.ch` are
kept, and the split segments of `text` are spliced in between. -/
def spliceDoc (doc : List (List Char)) (f t : Pos) (text : List Char) :
    List (List Char) :=
  let pre := doc.take f.line
  let post := doc.drop (t.line + 1)
  let before := (doc.getD f.line []).take f.ch
  let after := (doc.getD t.line []).drop t.ch
  pre ++ joinInsert before after (splitNl text) ++ post

structure EditorState where
  doc : List (List Char)
  selFrom : Pos
  selTo : Pos
  scrollLeft : Nat
  scrollTop : Nat
deriving DecidableEq, Repr

def EditorState.setSelection (e : EditorState) (f t : Pos) : EditorState :=
  { e with selFrom := f, selTo := t }

/-- Host `replaceSelection`: splice the text over the current selection and
collapse the selection to the end of the inserted text. -/
def EditorState.replaceSelection (e : EditorState) (text : List Char) :
    EditorState :=
  let p := computeEndPos e.selFrom text
  { e with doc := spliceDoc e.doc e.selFrom e.selTo text, selFrom := p, selTo := p }

def EditorState.setCursor (e : EditorState) (p : Pos) : EditorState :=
  { e with selFrom := p, selTo := p }

def EditorState.scrollTo (e : EditorState) (l t : Nat) : EditorState :=
  { e with scrollLeft := l, scrollTop := t }

/-! ## `NamePromptModal` (src/main.ts lines 266-344)

The modal resolves a promise exactly once.  `resolved` is the instance flag
set by `finish`/`cancel` before closing; `resolution = some r` records that
the promise has been settled with value `r` (a promise ignores any later
settlement attempt). -/

structure PromptState where
  resolved : Bool
  resolution : Option (Option String)
deriving DecidableEq, Repr

def initPrompt : PromptState := ⟨false, none⟩

/-- Settle the promise with `v` unless it is already settled. -/
def resolveOnce (s : PromptState) (v : Option String) : PromptState :=
  match s.resolution with
  | some _ => s
  | none => { s with resolution := some v }

/-- `onClose` (lines 326-328): `if (!this.resolved) this.resolve(null)`. -/
def modalOnClose (s : PromptState) : PromptState :=
  if s.resolved then s else resolveOnce s none

/-- `s.trim()` on strings (JavaScript trim, ASCII whitespace model). -/
def strTrim (s : String) : String := ⟨trimWs s.data⟩

/-- The value computed by `finish` (lines 330-337): the trimmed input, or
`prefix + defaultBase` when the trimmed input is empty. -/
def finishValue (pfx defaultBase input : String) : String :=
  if strTrim input = "" then pfx ++ defaultBase else strTrim input

/-- `finish` (lines 330-337), reached from the Save button or the Enter key:
set `resolved`, compute the value, close (which fires `onClose`), then
resolve with the value. -/
def modalFinish (pfx defaultBase input : String) (s : PromptState) : PromptState :=
  let s1 := { s with resolved := true }
  let s2 := modalOnClose s1
  resolveOnce s2 (some (finishValue pfx defaultBase input))

/-- `cancel` (lines 339-343), reached from the Cancel button or the Escape
key: set `resolved`, close, resolve with `null`. -/
def modalCancel (s : PromptState) : PromptState :=
  let s1 := { s with resolved := true }
  let s2 := modalOnClose s1
  resolveOnce s2 none

/-- Dismissing the modal without pressing a button: only `onClose` runs. -/
def modalDismiss (s : PromptState) : PromptState :=
  modalOnClose s

/-! ## The paste handler (src/main.ts lines 19-141)

Inputs the host supplies to one invocation of the `editor-paste` callback.
The naming dialog is user interaction, so its outcome (`dialogResult`,
`null` on cancellation) is an input; while the dialog is open the user may
move the selection and scroll, which `selDuringFrom/To` and
`scrollDuring*` record. -/

structure HandlerInput where
  activeFilePath : String
  activeFileBasename : String
  startFolder : Option MFolder
  ancestors : List MFolder
  clipboardTypes : List String
  vault : Vault
  dialogResult : Option String
  date : DateParts
  editor : EditorState
  selDuringFrom : Pos
  selDuringTo : Pos
  scrollDuringLeft : Nat
  scrollDuringTop : Nat
deriving DecidableEq, Repr

structure PasteOutcome where
  vault : Vault
  editor : EditorState
  notices : List String
  written : Option String
  insertedLink : Option String
  handled : Bool
deriving DecidableEq, Repr

def noParentNotice : String := "No parent folder for the current file."

def noAssetsNotice : String := "Could not locate or create assets folder."

/-- An event the handler ignores (returns before `preventDefault`). -/
def untouched (inp : HandlerInput) : PasteOutcome :=
  ⟨inp.vault, inp.editor, [], none, none, false⟩

/-- Lines 59-61:
`(await findNearestAssetsFolder(startFolder)) ?? (await ensureAssetsUnder(startFolder))`
— the resolved assets path (if any), the vault afterwards, and the notices
raised by the resolution. -/
def resolveAssets (v : Vault) (chain : List MFolder) (startPath : String) :
    Option String × Vault × List String :=
  match findNearestAssetsFolder chain with
  | some child => (some child.path, v, [])
  | none =>
    let r := ensureAssetsUnder v startPath
    (r.result, r.vault, r.notice.toList)

/-- Lines 110-131: the editor manipulation after the binary file is created.
`e1` is the editor state when the dialog closes; `selFrom`/`selTo` is the
selection captured at lines 46-47 when the paste event fired.  The scroll
offset is read (line 113) before the selection is touched, then the captured
selection is restored, the link spliced over it, the cursor placed at its
end, the scroll restored, and the whole cursor/scroll restoration re-applied
once more by the deferred `setTimeout` callback. -/
def applyEditorOps (e1 : EditorState) (selFrom selTo : Pos) (link : List Char) :
    EditorState :=
  let sL := e1.scrollLeft
  let sT := e1.scrollTop
  let e2 := e1.setSelection selFrom selTo
  let e3 := e2.replaceSelection link
  let endPos := computeEndPos selFrom link
  let e4 := e3.setCursor endPos
  let e5 := e4.scrollTo sL sT
  let e6 := e5.setCursor endPos
  let e7 := e6.scrollTo sL sT
  e7

/-- The `editor-paste` callback (lines 23-138), parameterized by the host's
`generateMarkdownLink` (`genLink created.path activeFile.path`). -/
def handlePaste (genLink : String → String → String) (inp : HandlerInput) :
    PasteOutcome :=
  let e0 := inp.editor
  if isInScope inp.activeFilePath = false then untouched inp
  else if inp.clipboardTypes = [] then untouched inp
  else
    match inp.clipboardTypes.find? (fun t => strStartsWith t "image/") with
    | none => untouched inp
    | some mime =>
      -- lines 42-43: preventDefault / stopPropagation; the event is handled
      let selFrom := e0.selFrom
      let selTo := e0.selTo
      match inp.startFolder with
      | none => ⟨inp.vault, e0, [noParentNotice], none, none, true⟩
      | some start =>
        match resolveAssets inp.vault (start :: inp.ancestors) start.path with
        | (none, v1, ns) => ⟨v1, e0, ns ++ [noAssetsNotice], none, none, true⟩
        | (some assetsPath, v1, ns) =>
          let defaultBase := defaultPasteBasename inp.date
          let ext := chooseExt mime
          -- the dialog is open here; selection and scroll may change
          let e1 : EditorState :=
            { e0 with selFrom := inp.selDuringFrom, selTo := inp.selDuringTo,
                      scrollLeft := inp.scrollDuringLeft,
                      scrollTop := inp.scrollDuringTop }
          match inp.dialogResult with
          | none => ⟨v1, e1, ns, none, none, true⟩
          | some nm =>
            let safeBase := safeBaseOf nm defaultBase
            match getUniquePath v1 assetsPath safeBase ext with
            | none => ⟨v1, e1, ns, none, none, true⟩
            | some targetPath =>
              let v2 := v1.createBinary targetPath
              let link := (genLink targetPath inp.activeFilePath).data
              ⟨v2, applyEditorOps e1 selFrom selTo link, ns,
                some targetPath, some ⟨link⟩, true⟩

/-! ## Concrete fixtures used by the witnesses, and spec predicates -/

/-- A concrete three-ancestor chain: the start folder has no assets child,
the middle ancestor has the child `Assets` (mixed case) and the root has a
farther `assets` child. -/
def chainC1 : List MFolder :=
  [⟨"Uni Notes/Math", [⟨"note.md", "Uni Notes/Math/note.md", false⟩]⟩,
   ⟨"Uni Notes", [⟨"Assets", "Uni Notes/Assets", true⟩]⟩,
   ⟨"/", [⟨"assets", "assets", true⟩]⟩]

def entryC1 : MEntry := ⟨"Assets", "Uni Notes/Assets", true⟩

/-- The vault of the spec example: `Pasted image.png` and
`Pasted image 1.png` already exist in `assets`. -/
def vaultC2 : Vault :=
  ⟨[("assets/Pasted image.png", false), ("assets/Pasted image 1.png", false)]⟩

def vC3 : Vault := ⟨[("Uni Notes", true), ("Uni Notes/Math", true)]⟩

def chainC3 : List MFolder :=
  [⟨"Uni Notes/Math", [⟨"notes.md", "Uni Notes/Math/notes.md", false⟩]⟩,
   ⟨"Uni Notes", []⟩]

def inpC4 : HandlerInput :=
  { activeFilePath := "Uni Notes/Math/n.md"
    activeFileBasename := "n"
    startFolder := some ⟨"Uni Notes/Math", []⟩
    ancestors := []
    clipboardTypes := ["image/png"]
    vault := ⟨[("Uni Notes/Math/assets", false)]⟩
    dialogResult := none
    date := ⟨2024, 0, 1, 0, 0, 0⟩
    editor := ⟨[], ⟨0, 0⟩, ⟨0, 0⟩, 0, 0⟩
    selDuringFrom := ⟨0, 0⟩
    selDuringTo := ⟨0, 0⟩
    scrollDuringLeft := 0
    scrollDuringTop := 0 }

def glC4 : String → String → String := fun p _ => p

def inpC5 : HandlerInput :=
  { activeFilePath := "Uni Notes/note.md"
    activeFileBasename := "note"
    startFolder := some ⟨"Uni Notes", []⟩
    ancestors := []
    clipboardTypes := ["image/png"]
    vault := ⟨[("Uni Notes", true), ("Uni Notes/note.md", false)]⟩
    dialogResult := none
    date := ⟨2024, 0, 1, 0, 0, 0⟩
    editor := ⟨["ab".data], ⟨0, 0⟩, ⟨0, 0⟩, 0, 0⟩
    selDuringFrom := ⟨0, 0⟩
    selDuringTo := ⟨0, 0⟩
    scrollDuringLeft := 0
    scrollDuringTop := 0 }

def glC5 : String → String → String := fun p _ => p

/-- No two adjacent whitespace characters. -/
def noTwoWs : List Char → Bool
  | [] => true
  | [_] => true
  | a :: b :: rest => !(a.isWhitespace && b.isWhitespace) && noTwoWs (b :: rest)

def inpC8 : HandlerInput :=
  { activeFilePath := "Uni Notes/Math/note.md"
    activeFileBasename := "note"
    startFolder := some ⟨"Uni Notes/Math", [⟨"assets", "Uni Notes/Math/assets", true⟩]⟩
    ancestors := []
    clipboardTypes := ["image/png"]
    vault := ⟨[("Uni Notes/Math/assets", true)]⟩
    dialogResult := some "diagram"
    date := ⟨2024, 0, 1, 0, 0, 0⟩
    editor := ⟨["hello world".data], ⟨0, 2⟩, ⟨0, 4⟩, 0, 0⟩
    selDuringFrom := ⟨0, 0⟩
    selDuringTo := ⟨0, 0⟩
    scrollDuringLeft := 5
    scrollDuringTop := 6 }

def glC8 : String → String → String := fun p _ => "![[" ++ p ++ "]]"

def linkC8 : String := glC8 "Uni Notes/Math/assets/diagram.png" "Uni Notes/Math/note.md"

/-! ## Theorems -/

/-! ### C1: nearest assets folder -/

lemma hasAssetsChild_false_iff (f : MFolder) :
    hasAssetsChild f = false ↔ f.children.find? isAssetsChild = none := by
  rw [List.find?_eq_none]
  simp [hasAssetsChild, List.any_eq_true]

lemma isAssetsChild_props {e : MEntry} (h : isAssetsChild e = true) :
    e.isFolder = true ∧ strToLower e.name = ASSETS_DIR_NAME := by
  simp [isAssetsChild] at h
  exact h

/-- C1: over any ancestor chain (start first, root last),
`findNearestAssetsFolder` returns an entry only if it is a subfolder named
`assets` up to lowercasing, belonging to the children of the first ancestor
that has such a child — every strictly nearer ancestor has none — and it
returns `none` exactly when no ancestor on the chain has such a child. -/
theorem findNearestAssetsFolder_spec (chain : List MFolder) :
    (∀ e, findNearestAssetsFolder chain = some e →
      ∃ pre f suf, chain = pre ++ f :: suf ∧
        (∀ g ∈ pre, hasAssetsChild g = false) ∧
        hasAssetsChild f = true ∧
        e ∈ f.children ∧ e.isFolder = true ∧ strToLower e.name = ASSETS_DIR_NAME) ∧
    (findNearestAssetsFolder chain = none ↔ ∀ f ∈ chain, hasAssetsChild f = false) := by
  induction chain with
  | nil =>
    constructor
    · intro e he; simp [findNearestAssetsFolder] at he
    · simp [findNearestAssetsFolder]
  | cons f rest ih =>
    constructor
    · intro e he
      unfold findNearestAssetsFolder at he
      cases hf : f.children.find? isAssetsChild with
      | some child =>
        rw [hf] at he
        simp at he
        subst he
        refine ⟨[], f, rest, rfl, by simp, ?_, ?_, ?_⟩
        · simp [hasAssetsChild, List.any_eq_true]
          exact ⟨child, List.mem_of_find?_eq_some hf, List.find?_some hf⟩
        · exact List.mem_of_find?_eq_some hf
        · exact isAssetsChild_props (List.find?_some hf)
      | none =>
        rw [hf] at he
        simp at he
        obtain ⟨pre, g, suf, hchain, hpre, hg, hmem, hfold, hname⟩ := ih.1 e he
        refine ⟨f :: pre, g, suf, by simp [hchain], ?_, hg, hmem, hfold, hname⟩
        intro x hx
        rcases List.mem_cons.mp hx with h1 | h2
        · subst h1; exact (hasAssetsChild_false_iff x).mpr hf
        · exact hpre x h2
    · unfold findNearestAssetsFolder
      cases hf : f.children.find? isAssetsChild with
      | some child =>
        simp only [hf]
        constructor
        · intro h; simp at h
        · intro h
          have hfalse := (hasAssetsChild_false_iff f).mp (h f (by simp))
          rw [hf] at hfalse
          simp at hfalse
      | none =>
        simp only [hf]
        rw [ih.2]
        simp [List.forall_mem_cons, (hasAssetsChild_false_iff f).mpr hf]



theorem findNearestAssetsFolder_spec_witness :
    ∃ pre f suf, chainC1 = pre ++ f :: suf ∧
      (∀ g ∈ pre, hasAssetsChild g = false) ∧
      hasAssetsChild f = true ∧
      entryC1 ∈ f.children ∧ entryC1.isFolder = true ∧
      strToLower entryC1.name = ASSETS_DIR_NAME :=
  (findNearestAssetsFolder_spec chainC1).1 entryC1 (by rfl)


/-! ### C2 and C7: `getUniquePath` -/

lemma digitChar_not_sep (m : Nat) (hm : m < 10) :
    isSepChar (Nat.digitChar m) = false := by
  interval_cases m <;> decide

lemma decDigitsFuel_not_sep : ∀ (fuel n : Nat) (c : Char),
    c ∈ decDigitsFuel fuel n → isSepChar c = false := by
  intro fuel
  induction fuel with
  | zero => intro n c hc; simp [decDigitsFuel] at hc
  | succ fuel ih =>
    intro n c hc
    unfold decDigitsFuel at hc
    split at hc
    · simp at hc
      subst hc
      rename_i hlt
      exact digitChar_not_sep n hlt
    · rcases List.mem_append.mp hc with h1 | h2
      · exact ih _ _ h1
      · simp at h2
        subst h2
        exact digitChar_not_sep (n % 10) (Nat.mod_lt _ (by omega))

lemma decDigitsFuel_lt_pow : ∀ (fuel n : Nat), n < fuel →
    n < 10 ^ (decDigitsFuel fuel n).length := by
  intro fuel
  induction fuel with
  | zero => intro n h; omega
  | succ fuel ih =>
    intro n h
    unfold decDigitsFuel
    split
    · simpa using by omega
    · rename_i h10
      push_neg at h10
      have hdiv : n / 10 < fuel := by
        have := Nat.div_lt_self (by omega : 0 < n) (by omega : 1 < 10)
        omega
      have := ih (n / 10) hdiv
      rw [List.length_append]
      simp only [List.length_cons, List.length_nil, Nat.zero_add]
      have hmod : n % 10 < 10 := Nat.mod_lt _ (by omega)
      have hn : n = 10 * (n / 10) + n % 10 := (Nat.div_add_mod n 10).symm ▸ by omega
      have hpow : 10 ^ ((decDigitsFuel fuel (n / 10)).length + 1) =
          10 * 10 ^ (decDigitsFuel fuel (n / 10)).length := by ring
      omega

lemma filter_collapseSeps (l : List Char) : ∀ (prev : Bool),
    (collapseSeps prev l).filter (fun c => !isSepChar c) =
      l.filter (fun c => !isSepChar c) := by
  induction l with
  | nil => intro prev; rfl
  | cons c cs ih =>
    intro prev
    unfold collapseSeps
    by_cases h : isSepChar c = true
    · simp only [h, if_true]
      cases prev
      · simp [List.filter_cons, h, ih, show isSepChar '/' = true from by decide]
      · simp [List.filter_cons, h, ih]
    · simp only [h, if_false, Bool.false_eq_true]
      simp [List.filter_cons, h, ih]

lemma filter_dropLeadSlash (l : List Char) :
    (dropLeadSlash l).filter (fun c => !isSepChar c) =
      l.filter (fun c => !isSepChar c) := by
  unfold dropLeadSlash
  induction l with
  | nil => rfl
  | cons c cs ih =>
    by_cases h : c = '/'
    · rw [List.dropWhile_cons_of_pos (by simp [h])]
      rw [ih]
      have : isSepChar c = true := by simp [isSepChar, h]
      simp [List.filter_cons, this]
    · rw [List.dropWhile_cons_of_neg (by simp [h])]

lemma filter_trimSlashes (l : List Char) :
    (trimSlashes l).filter (fun c => !isSepChar c) =
      l.filter (fun c => !isSepChar c) := by
  unfold trimSlashes
  rw [List.filter_reverse, filter_dropLeadSlash, List.filter_reverse,
    List.reverse_reverse, filter_dropLeadSlash]

lemma normalizePath_length_ge (s : String) :
    (s.data.filter (fun c => !isSepChar c)).length ≤ (normalizePath s).length := by
  have h1 : (normalizePath s).data = trimSlashes (collapseSeps false s.data) := rfl
  have h2 : ((normalizePath s).data.filter (fun c => !isSepChar c)).length ≤
      (normalizePath s).data.length := List.length_filter_le _ _
  rw [h1, filter_trimSlashes, filter_collapseSeps] at h2
  exact h2

lemma joinParts_pair (dir name : String) (hname : name ≠ "") :
    joinParts [dir, name] = if dir = "" then name else dir ++ "/" ++ name := by
  unfold joinParts
  by_cases h : dir = ""
  · simp [h, List.filter_cons, hname]
  · simp [h, List.filter_cons, hname]

lemma str_append_ne_empty_of_mid (a b c : String) (hb : b.data ≠ []) :
    a ++ b ++ c ≠ "" := by
  intro hc
  have : (a ++ b ++ c).data = a.data ++ b.data ++ c.data := by simp
  rw [hc] at this
  simp at this
  exact hb this.2.1

lemma filter_length_of_all {p : Char → Bool} {l : List Char}
    (h : ∀ c ∈ l, p c = true) : (l.filter p).length = l.length := by
  rw [List.filter_eq_self.mpr h]

lemma makeCandidate_length_ge (folderPath base ext : String) (i : Nat) (hi : i ≠ 0) :
    (decDigitsFuel (i + 1) i).length ≤
      (makeCandidate folderPath base ext i).length := by
  unfold makeCandidate
  rw [if_neg hi]
  set dir := if folderPath = "/" then "" else folderPath with hdir
  set name := base ++ " " ++ decRepr i ++ "." ++ ext with hn
  have hname : name ≠ "" := by
    rw [hn]
    have : base ++ " " ++ decRepr i ++ "." ++ ext =
        (base ++ " " ++ decRepr i) ++ "." ++ ext := by
      simp [String.ext_iff]
    rw [this]
    exact str_append_ne_empty_of_mid _ _ _ (by simp)
  refine le_trans ?_ (normalizePath_length_ge (joinParts [dir, name]))
  rw [joinParts_pair dir name hname]
  have hmid : ∀ (x y : List Char),
      ((decDigitsFuel (i + 1) i).filter (fun c => !isSepChar c)).length ≤
        ((x ++ decDigitsFuel (i + 1) i ++ y).filter (fun c => !isSepChar c)).length := by
    intro x y
    rw [List.filter_append, List.filter_append, List.length_append, List.length_append]
    omega
  have hfilt : ∀ (l : List Char), l = name.data ∨ l = dir.data ++ '/' :: name.data →
      (decDigitsFuel (i + 1) i).length ≤
        (l.filter (fun c => !isSepChar c)).length := by
    intro l hl
    have hnd : name.data =
        (base.data ++ [' ']) ++ decDigitsFuel (i + 1) i ++ ('.' :: ext.data) := by
      rw [hn]
      simp [decRepr]
    have hdig : ((decDigitsFuel (i + 1) i).filter (fun c => !isSepChar c)).length =
        (decDigitsFuel (i + 1) i).length :=
      filter_length_of_all (fun c hc => by
        simp [decDigitsFuel_not_sep (i + 1) i c hc])
    rcases hl with hl | hl
    · rw [hl, hnd]
      exact le_trans (le_of_eq hdig.symm) (hmid _ _)
    · rw [hl, hnd]
      have hform : dir.data ++ '/' ::
            ((base.data ++ [' ']) ++ decDigitsFuel (i + 1) i ++ ('.' :: ext.data)) =
          (dir.data ++ '/' :: (base.data ++ [' '])) ++ decDigitsFuel (i + 1) i ++
            ('.' :: ext.data) := by
        simp
      rw [hform]
      exact le_trans (le_of_eq hdig.symm) (hmid _ _)
  by_cases h : dir = ""
  · rw [if_pos h]
    exact hfilt name.data (Or.inl rfl)
  · rw [if_neg h]
    refine le_trans (hfilt (dir.data ++ '/' :: name.data) (Or.inr rfl)) ?_
    simp [String.length]

lemma foldr_maxlen_ge (entries : List (String × Bool)) (e : String × Bool)
    (hmem : e ∈ entries) :
    e.1.length ≤ entries.foldr (fun e m => max e.1.length m) 0 := by
  induction entries with
  | nil => simp at hmem
  | cons a l ih =>
    rcases List.mem_cons.mp hmem with h1 | h2
    · subst h1
      rw [List.foldr_cons]
      exact Nat.le_max_left _ _
    · rw [List.foldr_cons]
      exact le_trans (ih h2) (Nat.le_max_right _ _)

lemma existsPath_length_le (v : Vault) (p : String)
    (h : v.existsPath p = true) : p.length ≤ maxPathLen v := by
  unfold Vault.existsPath Vault.lookup at h
  rw [Option.isSome_map'] at h
  rw [List.find?_isSome] at h
  obtain ⟨e, hmem, he⟩ := h
  have hp : e.1 = p := by simpa using he
  subst hp
  exact foldr_maxlen_ge v.entries e hmem

lemma candidate_index_lt (v : Vault) (folderPath base ext : String) (i : Nat)
    (h : v.existsPath (makeCandidate folderPath base ext i) = true) :
    i < 10 ^ maxPathLen v := by
  rcases Nat.eq_zero_or_pos i with h0 | hpos
  · subst h0; exact Nat.pos_pow_of_pos _ (by omega)
  · have h1 := decDigitsFuel_lt_pow (i + 1) i (Nat.lt_succ_self i)
    have h2 := makeCandidate_length_ge folderPath base ext i (by omega)
    have h3 := existsPath_length_le v _ h
    calc i < 10 ^ (decDigitsFuel (i + 1) i).length := h1
      _ ≤ 10 ^ maxPathLen v := Nat.pow_le_pow_right (by omega) (by omega)

lemma loopUP_finds (v : Vault) (mk : Nat → String) :
    ∀ (fuel start : Nat),
    (∃ i, start ≤ i ∧ i < start + fuel ∧ v.existsPath (mk i) = false) →
    ∃ i0, loopUP v mk fuel start = some (mk i0) ∧ start ≤ i0 ∧
      v.existsPath (mk i0) = false ∧
      ∀ j, start ≤ j → j < i0 → v.existsPath (mk j) = true := by
  intro fuel
  induction fuel with
  | zero =>
    intro start ⟨i, h1, h2, _⟩
    omega
  | succ fuel ih =>
    intro start ⟨i, h1, h2, h3⟩
    unfold loopUP
    cases hc : v.existsPath (mk start) with
    | false =>
      exact ⟨start, by simp [hc], le_refl _, hc, fun j hj1 hj2 => by omega⟩
    | true =>
      have hi : start + 1 ≤ i := by
        rcases Nat.eq_or_lt_of_le h1 with he | hl
        · subst he; rw [hc] at h3; simp at h3
        · omega
      obtain ⟨i0, hi0, hge, hfree, hall⟩ := ih (start + 1) ⟨i, hi, by omega, h3⟩
      refine ⟨i0, by simp [hc, hi0], by omega, hfree, ?_⟩
      intro j hj1 hj2
      rcases Nat.eq_or_lt_of_le hj1 with he | hl
      · subst he; exact hc
      · exact hall j (by omega) hj2

/-- Characterization of `getUniquePath`: it always returns the candidate at
the least index whose path is not in the vault.  The counter stays below
`10 ^ maxPathLen v`, because a candidate with a larger index is longer than
every path in the vault, so the fuel in `getUniquePath` cannot run out. -/
lemma getUniquePath_least (v : Vault) (folderPath base ext : String) :
    ∃ i0, getUniquePath v folderPath base ext =
        some (makeCandidate folderPath base ext i0) ∧
      v.existsPath (makeCandidate folderPath base ext i0) = false ∧
      ∀ j, j < i0 → v.existsPath (makeCandidate folderPath base ext j) = true := by
  have hfree : v.existsPath (makeCandidate folderPath base ext (10 ^ maxPathLen v)) =
      false := by
    cases hx : v.existsPath (makeCandidate folderPath base ext (10 ^ maxPathLen v)) with
    | false => rfl
    | true =>
      have := candidate_index_lt v folderPath base ext _ hx
      omega
  have hex : ∃ i, 0 ≤ i ∧ i < 0 + (10 ^ maxPathLen v + 1) ∧
      v.existsPath (makeCandidate folderPath base ext i) = false :=
    ⟨10 ^ maxPathLen v, Nat.zero_le _, by omega, hfree⟩
  obtain ⟨i0, h1, h2, h3, h4⟩ := loopUP_finds v (makeCandidate folderPath base ext)
    (10 ^ maxPathLen v + 1) 0 hex
  exact ⟨i0, h1, h3, fun j hj => h4 j (by omega) hj⟩

/-- C2: `getUniquePath` returns the candidate `folder/base.ext`,
`folder/base 1.ext`, `folder/base 2.ext`, … at the least index that does not
name an existing vault entry: the result does not collide with any entry
present at scan time, and every earlier candidate does exist. -/
theorem getUniquePath_first_free (v : Vault) (folderPath base ext : String) :
    ∃ i0, getUniquePath v folderPath base ext =
        some (makeCandidate folderPath base ext i0) ∧
      v.existsPath (makeCandidate folderPath base ext i0) = false ∧
      ∀ j, j < i0 → v.existsPath (makeCandidate folderPath base ext j) = true :=
  getUniquePath_least v folderPath base ext


theorem getUniquePath_first_free_witness :
    getUniquePath ⟨[]⟩ "assets" "Pasted image" "png" =
      some "assets/Pasted image.png" ∧
    getUniquePath vaultC2 "assets" "Pasted image" "png" =
      some "assets/Pasted image 2.png" ∧
    (∃ i0, getUniquePath vaultC2 "assets" "Pasted image" "png" =
        some (makeCandidate "assets" "Pasted image" "png" i0) ∧
      vaultC2.existsPath (makeCandidate "assets" "Pasted image" "png" i0) = false ∧
      ∀ j, j < i0 →
        vaultC2.existsPath (makeCandidate "assets" "Pasted image" "png" j) = true) :=
  ⟨by rfl, by rfl, getUniquePath_first_free vaultC2 "assets" "Pasted image" "png"⟩

/-- C7: for every (finite) vault the candidate loop terminates — some
counter value yields a candidate that does not exist, and `getUniquePath`
returns a result rather than running forever. -/
theorem getUniquePath_terminates (v : Vault) (folderPath base ext : String) :
    (∃ i, v.existsPath (makeCandidate folderPath base ext i) = false) ∧
    (getUniquePath v folderPath base ext).isSome = true := by
  obtain ⟨i0, h1, h2, _⟩ := getUniquePath_least v folderPath base ext
  exact ⟨⟨i0, h2⟩, by rw [h1]; rfl⟩


/-! ### C3: fallback creation happens once and is idempotent -/

lemma lookup_createFolder_self (v : Vault) (path : String) :
    (v.createFolder path).lookup path = some true := by
  simp [Vault.createFolder, Vault.lookup, List.find?]

/-- C3: when no ancestor of the start folder has an assets child and nothing
occupies `start/assets`, `ensureAssetsUnder` creates exactly one directory at
`start/assets` and returns it; running it again on the resulting vault
returns the same directory and leaves the vault unchanged. -/
theorem ensureAssetsUnder_creates_once (v : Vault) (chain : List MFolder)
    (folderPath : String)
    (hchain : findNearestAssetsFolder chain = none)
    (h : v.lookup (assetsPathUnder folderPath) = none) :
    (ensureAssetsUnder v folderPath).result = some (assetsPathUnder folderPath) ∧
    (ensureAssetsUnder v folderPath).vault.entries =
      (assetsPathUnder folderPath, true) :: v.entries ∧
    (ensureAssetsUnder v folderPath).notice = none ∧
    (ensureAssetsUnder (ensureAssetsUnder v folderPath).vault folderPath).result =
      some (assetsPathUnder folderPath) ∧
    (ensureAssetsUnder (ensureAssetsUnder v folderPath).vault folderPath).vault =
      (ensureAssetsUnder v folderPath).vault := by
  have h2 := lookup_createFolder_self v (assetsPathUnder folderPath)
  unfold ensureAssetsUnder
  rw [h, h2]
  simp [Vault.createFolder, Vault.lookup, List.find?]



theorem ensureAssetsUnder_creates_once_witness :
    (ensureAssetsUnder vC3 "Uni Notes/Math").result =
      some (assetsPathUnder "Uni Notes/Math") ∧
    (ensureAssetsUnder vC3 "Uni Notes/Math").vault.entries =
      (assetsPathUnder "Uni Notes/Math", true) :: vC3.entries ∧
    (ensureAssetsUnder vC3 "Uni Notes/Math").notice = none ∧
    (ensureAssetsUnder (ensureAssetsUnder vC3 "Uni Notes/Math").vault
        "Uni Notes/Math").result = some (assetsPathUnder "Uni Notes/Math") ∧
    (ensureAssetsUnder (ensureAssetsUnder vC3 "Uni Notes/Math").vault
        "Uni Notes/Math").vault = (ensureAssetsUnder vC3 "Uni Notes/Math").vault :=
  ensureAssetsUnder_creates_once vC3 chainC3 "Uni Notes/Math" (by rfl) (by rfl)

/-! ### C4: conflict at the assets path -/

/-- C4: in the fallback branch, a non-folder entry occupying `start/assets`
makes the operation fail — `ensureAssetsUnder` raises the conflict notice,
creates nothing, and the whole paste handler aborts with no write, no link
and the vault and editor untouched; while an existing folder entry is
returned without any creation and without a notice. -/
theorem ensureAssetsUnder_conflict_spec (genLink : String → String → String)
    (inp : HandlerInput) (start : MFolder) (mime : String)
    (hscope : isInScope inp.activeFilePath = true)
    (himg : inp.clipboardTypes.find? (fun t => strStartsWith t "image/") = some mime)
    (hstart : inp.startFolder = some start)
    (hnear : findNearestAssetsFolder (start :: inp.ancestors) = none)
    (hconf : inp.vault.lookup (assetsPathUnder start.path) = some false) :
    (ensureAssetsUnder inp.vault start.path).result = none ∧
    (ensureAssetsUnder inp.vault start.path).vault = inp.vault ∧
    (ensureAssetsUnder inp.vault start.path).notice =
      some (nonFolderNotice (assetsPathUnder start.path)) ∧
    handlePaste genLink inp =
      ⟨inp.vault, inp.editor,
        [nonFolderNotice (assetsPathUnder start.path), noAssetsNotice],
        none, none, true⟩ ∧
    (∀ w : Vault, w.lookup (assetsPathUnder start.path) = some true →
      ensureAssetsUnder w start.path =
        ⟨some (assetsPathUnder start.path), w, none⟩) := by
  have hne : inp.clipboardTypes ≠ [] := by
    intro hE; rw [hE] at himg; simp at himg
  refine ⟨?_, ?_, ?_, ?_, ?_⟩
  · unfold ensureAssetsUnder; rw [hconf]
  · unfold ensureAssetsUnder; rw [hconf]
  · unfold ensureAssetsUnder; rw [hconf]
  · unfold handlePaste
    rw [hscope]
    simp only [if_false, Bool.true_eq_false, if_neg hne, himg, hstart]
    simp only [resolveAssets, hnear]
    unfold ensureAssetsUnder
    rw [hconf]
    simp
  · intro w hw
    unfold ensureAssetsUnder
    rw [hw]



theorem ensureAssetsUnder_conflict_spec_witness :
    (ensureAssetsUnder inpC4.vault "Uni Notes/Math").result = none ∧
    (ensureAssetsUnder inpC4.vault "Uni Notes/Math").vault = inpC4.vault ∧
    (ensureAssetsUnder inpC4.vault "Uni Notes/Math").notice =
      some (nonFolderNotice (assetsPathUnder "Uni Notes/Math")) ∧
    handlePaste glC4 inpC4 =
      ⟨inpC4.vault, inpC4.editor,
        [nonFolderNotice (assetsPathUnder "Uni Notes/Math"), noAssetsNotice],
        none, none, true⟩ ∧
    (∀ w : Vault, w.lookup (assetsPathUnder "Uni Notes/Math") = some true →
      ensureAssetsUnder w "Uni Notes/Math" =
        ⟨some (assetsPathUnder "Uni Notes/Math"), w, none⟩) :=
  ensureAssetsUnder_conflict_spec glC4 inpC4 ⟨"Uni Notes/Math", []⟩ "image/png"
    (by rfl) (by rfl) (by rfl) (by rfl) (by rfl)


/-! ### C5: cancellation of the naming dialog -/

lemma resolveAssets_vault_cases (v : Vault) (chain : List MFolder) (sp : String) :
    (resolveAssets v chain sp).2.1 = v ∨
    (resolveAssets v chain sp).2.1 = v.createFolder (assetsPathUnder sp) := by
  cases hn : findNearestAssetsFolder chain with
  | some child => simp [resolveAssets, hn]
  | none =>
    cases h2 : v.lookup (assetsPathUnder sp) with
    | none =>
      cases h3 : (v.createFolder (assetsPathUnder sp)).lookup (assetsPathUnder sp) with
      | none => simp [resolveAssets, ensureAssetsUnder, hn, h2, h3]
      | some b => cases b <;> simp [resolveAssets, ensureAssetsUnder, hn, h2, h3]
    | some b => cases b <;> simp [resolveAssets, ensureAssetsUnder, hn, h2]

lemma resolveAssets_some_notices (v : Vault) (chain : List MFolder) (sp ap : String)
    (h : (resolveAssets v chain sp).1 = some ap) :
    (resolveAssets v chain sp).2.2 = [] := by
  cases hn : findNearestAssetsFolder chain with
  | some child => simp [resolveAssets, hn]
  | none =>
    cases h2 : v.lookup (assetsPathUnder sp) with
    | none =>
      cases h3 : (v.createFolder (assetsPathUnder sp)).lookup (assetsPathUnder sp) with
      | none => simp [resolveAssets, ensureAssetsUnder, hn, h2, h3]
      | some b => cases b <;> simp [resolveAssets, ensureAssetsUnder, hn, h2, h3]
    | some b =>
      cases b
      · exfalso; simp [resolveAssets, ensureAssetsUnder, hn, h2] at h
      · simp [resolveAssets, ensureAssetsUnder, hn, h2]



/-- C5 as stated is false on the code: when the fallback created the assets
folder before the dialog opened, a cancelled dialog still leaves the vault
mutated (the folder creation is not rolled back), so the handler did not
return before every file-system mutation. -/
theorem cancel_mutates_vault_counterexample :
    inpC5.dialogResult = none ∧
    (handlePaste glC5 inpC5).written = none ∧
    (handlePaste glC5 inpC5).vault ≠ inpC5.vault := by
  refine ⟨rfl, by rfl, ?_⟩
  decide

/-- C5 (amended): when the dialog resolves to no value, the handler writes no
binary file, inserts no link, raises no notice and leaves the document
unchanged; the vault is exactly the one produced by the assets-folder
resolution step, which may already have created the assets folder before the
dialog opened. -/
theorem cancel_no_further_effects (genLink : String → String → String)
    (inp : HandlerInput) (start : MFolder) (mime ap : String)
    (hscope : isInScope inp.activeFilePath = true)
    (himg : inp.clipboardTypes.find? (fun t => strStartsWith t "image/") = some mime)
    (hstart : inp.startFolder = some start)
    (hres : (resolveAssets inp.vault (start :: inp.ancestors) start.path).1 = some ap)
    (hcancel : inp.dialogResult = none) :
    (handlePaste genLink inp).written = none ∧
    (handlePaste genLink inp).insertedLink = none ∧
    (handlePaste genLink inp).notices = [] ∧
    (handlePaste genLink inp).editor.doc = inp.editor.doc ∧
    (handlePaste genLink inp).vault =
      (resolveAssets inp.vault (start :: inp.ancestors) start.path).2.1 ∧
    ((handlePaste genLink inp).vault = inp.vault ∨
     (handlePaste genLink inp).vault =
       inp.vault.createFolder (assetsPathUnder start.path)) := by
  have hne : inp.clipboardTypes ≠ [] := by
    intro hE; rw [hE] at himg; simp at himg
  have hns := resolveAssets_some_notices inp.vault (start :: inp.ancestors) start.path ap hres
  have hvc := resolveAssets_vault_cases inp.vault (start :: inp.ancestors) start.path
  have hr : resolveAssets inp.vault (start :: inp.ancestors) start.path =
      (some ap, (resolveAssets inp.vault (start :: inp.ancestors) start.path).2.1,
        (resolveAssets inp.vault (start :: inp.ancestors) start.path).2.2) := by
    rw [← hres]
  unfold handlePaste
  rw [hscope]
  simp only [Bool.true_eq_false, if_false, if_neg hne, himg, hstart, hcancel]
  rw [hr]
  refine ⟨rfl, rfl, hns, rfl, rfl, ?_⟩
  exact hvc

theorem cancel_no_further_effects_witness :
    (handlePaste glC5 inpC5).written = none ∧
    (handlePaste glC5 inpC5).insertedLink = none ∧
    (handlePaste glC5 inpC5).notices = [] ∧
    (handlePaste glC5 inpC5).editor.doc = inpC5.editor.doc ∧
    (handlePaste glC5 inpC5).vault =
      (resolveAssets inpC5.vault (⟨"Uni Notes", []⟩ :: inpC5.ancestors)
        "Uni Notes").2.1 ∧
    ((handlePaste glC5 inpC5).vault = inpC5.vault ∨
     (handlePaste glC5 inpC5).vault =
       inpC5.vault.createFolder (assetsPathUnder "Uni Notes")) :=
  cancel_no_further_effects glC5 inpC5 ⟨"Uni Notes", []⟩ "image/png"
    "Uni Notes/assets" (by rfl) (by rfl) (by rfl) (by rfl) (by rfl)


/-! ### C6: `sanitizeBase` -/


lemma noTwoWs_tail {a : Char} {l : List Char} (h : noTwoWs (a :: l) = true) :
    noTwoWs l = true := by
  cases l with
  | nil => rfl
  | cons b rest => simp [noTwoWs] at h; exact h.2

lemma noTwoWs_append_left : ∀ (m t : List Char),
    noTwoWs (m ++ t) = true → noTwoWs m = true := by
  intro m
  induction m with
  | nil => intro t _; rfl
  | cons a m' ih =>
    intro t h
    cases m' with
    | nil => rfl
    | cons b rest =>
      simp only [List.cons_append] at h
      simp only [noTwoWs, Bool.and_eq_true] at h ⊢
      exact ⟨h.1, by have := ih t h.2; exact this⟩

lemma noTwoWs_append_right : ∀ (m t : List Char),
    noTwoWs (m ++ t) = true → noTwoWs t = true := by
  intro m
  induction m with
  | nil => intro t h; exact h
  | cons a m' ih =>
    intro t h
    exact ih t (noTwoWs_tail h)

lemma collapseWs_head_true : ∀ (cs : List Char) (c : Char),
    (collapseWs true cs).head? = some c → c.isWhitespace = false := by
  intro cs
  induction cs with
  | nil => intro c h; simp [collapseWs] at h
  | cons a as ih =>
    intro c h
    unfold collapseWs at h
    by_cases hw : a.isWhitespace = true
    · rw [if_pos hw, if_pos rfl] at h
      exact ih c h
    · simp only [hw, Bool.false_eq_true, if_false] at h
      simp at h
      subst h
      simpa using hw

lemma noTwoWs_collapseWs : ∀ (cs : List Char) (prev : Bool),
    noTwoWs (collapseWs prev cs) = true := by
  intro cs
  induction cs with
  | nil => intro prev; rfl
  | cons a as ih =>
    intro prev
    unfold collapseWs
    by_cases hw : a.isWhitespace = true
    · rw [if_pos hw]
      cases prev with
      | true => rw [if_pos rfl]; exact ih true
      | false =>
        rw [if_neg (by simp)]
        cases hh : (collapseWs true as).head? with
        | none =>
          rw [List.head?_eq_none_iff] at hh
          rw [hh]
          rfl
        | some c =>
          have hcw := collapseWs_head_true as c hh
          cases hcol : collapseWs true as with
          | nil => rfl
          | cons x xs =>
            rw [hcol] at hh
            simp at hh
            subst hh
            have := ih true
            rw [hcol] at this
            simp [noTwoWs, hcw, this]
    · rw [if_neg hw]
      cases hcol : collapseWs false as with
      | nil => rfl
      | cons x xs =>
        have := ih false
        rw [hcol] at this
        simp [noTwoWs, this]
        exact Or.inl (by simpa using hw)



lemma trimWsEnd_prefix : ∀ (l : List Char), ∃ t, l = trimWsEnd l ++ t := by
  intro l
  induction l with
  | nil => exact ⟨[], rfl⟩
  | cons c cs ih =>
    obtain ⟨t, ht⟩ := ih
    unfold trimWsEnd
    cases hr : trimWsEnd cs with
    | nil =>
      by_cases hw : c.isWhitespace = true
      · rw [if_pos hw]
        exact ⟨c :: cs, rfl⟩
      · rw [if_neg hw]
        refine ⟨cs, ?_⟩
        simp
    | cons x xs =>
      refine ⟨t, ?_⟩
      rw [hr] at ht
      simpa using ht

lemma trimWsEnd_head? : ∀ (l : List Char) (c : Char),
    (trimWsEnd l).head? = some c → l.head? = some c := by
  intro l c
  cases l with
  | nil => intro h; simp [trimWsEnd] at h
  | cons a as =>
    intro h
    unfold trimWsEnd at h
    cases hr : trimWsEnd as with
    | nil =>
      rw [hr] at h
      by_cases hw : a.isWhitespace = true
      · rw [if_pos hw] at h; simp at h
      · rw [if_neg hw] at h
        simp at h
        simp [h]
    | cons x xs =>
      rw [hr] at h
      simp at h
      simp [h]

lemma trimWsEnd_getLast? : ∀ (l : List Char) (c : Char),
    (trimWsEnd l).getLast? = some c → c.isWhitespace = false := by
  intro l
  induction l with
  | nil => intro c h; simp [trimWsEnd] at h
  | cons a as ih =>
    intro c h
    unfold trimWsEnd at h
    cases hr : trimWsEnd as with
    | nil =>
      rw [hr] at h
      by_cases hw : a.isWhitespace = true
      · rw [if_pos hw] at h; simp at h
      · rw [if_neg hw] at h
        simp at h
        subst h
        simpa using hw
    | cons x xs =>
      rw [hr] at h
      rw [List.getLast?_cons_cons] at h
      rw [← hr] at h
      exact ih c (by rw [hr]; rw [hr] at h; exact h)

lemma head?_dropWhile (p : Char → Bool) : ∀ (l : List Char) (c : Char),
    (l.dropWhile p).head? = some c → p c = false := by
  intro l
  induction l with
  | nil => intro c h; simp at h
  | cons a as ih =>
    intro c h
    by_cases hp : p a = true
    · rw [List.dropWhile_cons_of_pos hp] at h
      exact ih c h
    · rw [List.dropWhile_cons_of_neg hp] at h
      simp at h
      subst h
      simpa using hp

lemma mem_trimWsEnd {c : Char} {l : List Char} (h : c ∈ trimWsEnd l) : c ∈ l := by
  obtain ⟨t, ht⟩ := trimWsEnd_prefix l
  rw [ht]
  exact List.mem_append_left t h

lemma mem_dropWhile {c : Char} (p : Char → Bool) {l : List Char}
    (h : c ∈ l.dropWhile p) : c ∈ l := by
  have hsplit : l.takeWhile p ++ l.dropWhile p = l :=
    List.takeWhile_append_dropWhile p l
  rw [← hsplit]
  exact List.mem_append_right _ h

lemma collapseWs_mem : ∀ (l : List Char) (prev : Bool) (c : Char),
    c ∈ collapseWs prev l → c = ' ' ∨ c ∈ l := by
  intro l
  induction l with
  | nil => intro prev c h; simp [collapseWs] at h
  | cons a as ih =>
    intro prev c h
    unfold collapseWs at h
    by_cases hw : a.isWhitespace = true
    · rw [if_pos hw] at h
      by_cases hp : prev = true
      · rw [if_pos hp] at h
        rcases ih true c h with h1 | h2
        · exact Or.inl h1
        · exact Or.inr (List.mem_cons_of_mem a h2)
      · rw [if_neg hp] at h
        rcases List.mem_cons.mp h with h1 | h2
        · exact Or.inl h1
        · rcases ih true c h2 with h3 | h4
          · exact Or.inl h3
          · exact Or.inr (List.mem_cons_of_mem a h4)
    · rw [if_neg hw] at h
      rcases List.mem_cons.mp h with h1 | h2
      · exact Or.inr (h1 ▸ List.mem_cons_self a as)
      · rcases ih false c h2 with h3 | h4
        · exact Or.inl h3
        · exact Or.inr (List.mem_cons_of_mem a h4)

lemma collapseWs_ws_mem : ∀ (l : List Char) (prev : Bool) (c : Char),
    c ∈ collapseWs prev l → c.isWhitespace = true → c = ' ' := by
  intro l
  induction l with
  | nil => intro prev c h; simp [collapseWs] at h
  | cons a as ih =>
    intro prev c h hws
    unfold collapseWs at h
    by_cases hw : a.isWhitespace = true
    · rw [if_pos hw] at h
      by_cases hp : prev = true
      · rw [if_pos hp] at h
        exact ih true c h hws
      · rw [if_neg hp] at h
        rcases List.mem_cons.mp h with h1 | h2
        · exact h1
        · exact ih true c h2 hws
    · rw [if_neg hw] at h
      rcases List.mem_cons.mp h with h1 | h2
      · subst h1; exact absurd hws (by simpa using hw)
      · exact ih false c h2 hws



lemma replaceIllegal_not_illegal : ∀ (l : List Char) (c : Char),
    c ∈ replaceIllegal l → isIllegalChar c = false := by
  intro l c h
  unfold replaceIllegal at h
  obtain ⟨a, _, ha⟩ := List.mem_map.mp h
  by_cases hi : isIllegalChar a = true
  · rw [if_pos hi] at ha
    subst ha
    decide
  · rw [if_neg hi] at ha
    subst ha
    simpa using hi

lemma cleanedBase_data (s : String) :
    (cleanedBase s).data = trimWs (collapseWs false (replaceIllegal s.data)) := rfl

lemma mem_cleanedBase {s : String} {c : Char} (h : c ∈ (cleanedBase s).data) :
    c ∈ collapseWs false (replaceIllegal s.data) := by
  rw [cleanedBase_data] at h
  unfold trimWs at h
  exact mem_dropWhile Char.isWhitespace (mem_trimWsEnd h)

/-- C6, transform part: the cleaned name contains no path-illegal character,
every whitespace in it is a single plain space with no two adjacent, and it
neither starts nor ends with whitespace; and whenever the cleaned name is
empty or all dots, the paste flow falls back to the default base name. -/
theorem sanitizeBase_spec (s d : String) :
    (sanitizeBase s = "" ∨ sanitizeBase s = cleanedBase s) ∧
    (∀ c ∈ (sanitizeBase s).data, isIllegalChar c = false) ∧
    (∀ c ∈ (sanitizeBase s).data, c.isWhitespace = true → c = ' ') ∧
    noTwoWs (sanitizeBase s).data = true ∧
    (∀ c, (sanitizeBase s).data.head? = some c → c.isWhitespace = false) ∧
    (∀ c, (sanitizeBase s).data.getLast? = some c → c.isWhitespace = false) ∧
    ((cleanedBase s = "" ∨ isAllDots (cleanedBase s) = true) → safeBaseOf s d = d) := by
  have hillegal : ∀ c ∈ (cleanedBase s).data, isIllegalChar c = false := by
    intro c hc
    rcases collapseWs_mem (replaceIllegal s.data) false c (mem_cleanedBase hc) with h1 | h2
    · subst h1; decide
    · exact replaceIllegal_not_illegal s.data c h2
  have hws : ∀ c ∈ (cleanedBase s).data, c.isWhitespace = true → c = ' ' := by
    intro c hc hw
    exact collapseWs_ws_mem (replaceIllegal s.data) false c (mem_cleanedBase hc) hw
  have hnotwo : noTwoWs (cleanedBase s).data = true := by
    rw [cleanedBase_data]
    unfold trimWs
    have h1 := noTwoWs_collapseWs (replaceIllegal s.data) false
    have hsplit : (collapseWs false (replaceIllegal s.data)).takeWhile Char.isWhitespace ++
        (collapseWs false (replaceIllegal s.data)).dropWhile Char.isWhitespace =
        collapseWs false (replaceIllegal s.data) :=
      List.takeWhile_append_dropWhile Char.isWhitespace _
    have h2 : noTwoWs ((collapseWs false (replaceIllegal s.data)).dropWhile
        Char.isWhitespace) = true := by
      refine noTwoWs_append_right
        ((collapseWs false (replaceIllegal s.data)).takeWhile Char.isWhitespace) _ ?_
      rw [hsplit]
      exact h1
    obtain ⟨t, ht⟩ := trimWsEnd_prefix
      ((collapseWs false (replaceIllegal s.data)).dropWhile Char.isWhitespace)
    refine noTwoWs_append_left _ t ?_
    rw [← ht]
    exact h2
  have hhead : ∀ c, (cleanedBase s).data.head? = some c → c.isWhitespace = false := by
    intro c hc
    rw [cleanedBase_data] at hc
    unfold trimWs at hc
    exact head?_dropWhile Char.isWhitespace _ c (trimWsEnd_head? _ c hc)
  have hlast : ∀ c, (cleanedBase s).data.getLast? = some c → c.isWhitespace = false := by
    intro c hc
    rw [cleanedBase_data] at hc
    unfold trimWs at hc
    exact trimWsEnd_getLast? _ c hc
  by_cases hcond : (cleanedBase s = "" ∨ isAllDots (cleanedBase s) = true)
  · have hsan : sanitizeBase s = "" := by
      unfold sanitizeBase
      rcases hcond with h1 | h2
      · rw [if_pos (by simp [h1])]
      · rw [if_pos (by simp [h2])]
    refine ⟨Or.inl hsan, ?_, ?_, ?_, ?_, ?_, ?_⟩
    · intro c hc; rw [hsan] at hc; simp at hc
    · intro c hc; rw [hsan] at hc; simp at hc
    · rw [hsan]; rfl
    · intro c hc; rw [hsan] at hc; simp at hc
    · intro c hc; rw [hsan] at hc; simp at hc
    · intro _
      unfold safeBaseOf
      rw [if_pos hsan]
  · have hsan : sanitizeBase s = cleanedBase s := by
      unfold sanitizeBase
      push_neg at hcond
      rw [if_neg (by simp [hcond.1, hcond.2])]
    rw [hsan]
    exact ⟨Or.inr rfl, hillegal, hws, hnotwo, hhead, hlast, fun hc => absurd hc hcond⟩

theorem sanitizeBase_spec_witness :
    (cleanedBase "??" = "" ∨ isAllDots (cleanedBase "??") = true) ∧
    safeBaseOf "??" "Pasted image 20240101000000" = "Pasted image 20240101000000" :=
  ⟨Or.inl (by rfl),
    (sanitizeBase_spec "??" "Pasted image 20240101000000").2.2.2.2.2.2
      (Or.inl (by rfl))⟩


/-! ### C8: a successful paste -/

lemma splitNl_ne_nil (l : List Char) : splitNl l ≠ [] := by
  induction l with
  | nil => simp [splitNl]
  | cons c cs ih =>
    unfold splitNl
    by_cases h : c = '\n'
    · simp [h]
    · simp only [h, if_false]
      cases hs : splitNl cs with
      | nil => simp
      | cons a b => simp

lemma addAfterLast_length (suffix : List Char) (l : List (List Char)) :
    (addAfterLast suffix l).length = l.length := by
  induction l with
  | nil => rfl
  | cons x xs ih =>
    cases xs with
    | nil => rfl
    | cons y ys => simp [addAfterLast] at ih ⊢; exact ih

lemma joinInsert_length (before after : List Char) (tls : List (List Char))
    (h : tls ≠ []) : (joinInsert before after tls).length = tls.length := by
  cases tls with
  | nil => exact absurd rfl h
  | cons x xs =>
    cases xs with
    | nil => rfl
    | cons y ys => simp [joinInsert, addAfterLast_length]

lemma spliceDoc_take (doc : List (List Char)) (f t : Pos) (text : List Char)
    (hf : f.line ≤ doc.length) :
    (spliceDoc doc f t text).take f.line = doc.take f.line := by
  unfold spliceDoc
  rw [List.append_assoc]
  have hlen : (doc.take f.line).length = f.line := by
    rw [List.length_take]; omega
  exact List.take_left' hlen

lemma spliceDoc_drop (doc : List (List Char)) (f t : Pos) (text : List Char)
    (hf : f.line ≤ doc.length) :
    (spliceDoc doc f t text).drop (f.line + (splitNl text).length) =
      doc.drop (t.line + 1) := by
  unfold spliceDoc
  rw [List.append_assoc]
  have hlen : (doc.take f.line).length = f.line := by
    rw [List.length_take]; omega
  have hji := joinInsert_length ((doc.getD f.line []).take f.ch)
    ((doc.getD t.line []).drop t.ch) (splitNl text) (splitNl_ne_nil text)
  rw [← List.append_assoc]
  refine List.drop_left' ?_
  rw [List.length_append, hlen, hji]



lemma joinInsert_head (before after : List Char) (tls : List (List Char))
    (h : tls ≠ []) :
    ∃ r, (joinInsert before after tls).headD [] = before ++ r := by
  cases tls with
  | nil => exact absurd rfl h
  | cons x xs =>
    cases xs with
    | nil => exact ⟨x ++ after, by simp [joinInsert]⟩
    | cons y ys => exact ⟨x, by simp [joinInsert]⟩

lemma addAfterLast_getLastD (after : List Char) :
    ∀ (l : List (List Char)) (d : List Char), l ≠ [] →
    ∃ r, (addAfterLast after l).getLastD d = r ++ after := by
  intro l
  induction l with
  | nil => intro d h; exact absurd rfl h
  | cons x xs ih =>
    intro d h
    cases xs with
    | nil => exact ⟨x, by simp [addAfterLast]⟩
    | cons y ys =>
      obtain ⟨r, hr⟩ := ih x (by simp)
      refine ⟨r, ?_⟩
      show (x :: addAfterLast after (y :: ys)).getLastD d = r ++ after
      rw [List.getLastD_cons]
      exact hr

lemma joinInsert_getLastD (before after : List Char) (tls : List (List Char))
    (h : tls ≠ []) (d : List Char) :
    ∃ r, (joinInsert before after tls).getLastD d = r ++ after := by
  cases tls with
  | nil => exact absurd rfl h
  | cons x xs =>
    cases xs with
    | nil => exact ⟨before ++ x, by simp [joinInsert]⟩
    | cons y ys =>
      obtain ⟨r, hr⟩ := addAfterLast_getLastD after (y :: ys) (before ++ x) (by simp)
      refine ⟨r, ?_⟩
      show ((before ++ x) :: addAfterLast after (y :: ys)).getLastD d = r ++ after
      rw [List.getLastD_cons]
      exact hr



lemma spliceDoc_fromLine (doc : List (List Char)) (f t : Pos) (text : List Char)
    (hf : f.line ≤ doc.length) :
    ∃ r, (spliceDoc doc f t text).getD f.line [] =
      (doc.getD f.line []).take f.ch ++ r := by
  obtain ⟨r, hr⟩ := joinInsert_head ((doc.getD f.line []).take f.ch)
    ((doc.getD t.line []).drop t.ch) (splitNl text) (splitNl_ne_nil text)
  refine ⟨r, ?_⟩
  unfold spliceDoc
  rw [List.append_assoc]
  have hlen : (doc.take f.line).length = f.line := by rw [List.length_take]; omega
  rw [List.getD_append_right _ _ _ _ (by omega), hlen, Nat.sub_self]
  cases hji : joinInsert ((doc.getD f.line []).take f.ch)
      ((doc.getD t.line []).drop t.ch) (splitNl text) with
  | nil =>
    have := joinInsert_length ((doc.getD f.line []).take f.ch)
      ((doc.getD t.line []).drop t.ch) (splitNl text) (splitNl_ne_nil text)
    rw [hji] at this
    exact absurd this.symm (by simpa using splitNl_ne_nil text)
  | cons a b =>
    rw [hji] at hr
    simpa using hr

lemma spliceDoc_lastLine (doc : List (List Char)) (f t : Pos) (text : List Char)
    (hf : f.line ≤ doc.length) :
    ∃ r, (spliceDoc doc f t text).getD (f.line + (splitNl text).length - 1) [] =
      r ++ (doc.getD t.line []).drop t.ch := by
  obtain ⟨r, hr⟩ := joinInsert_getLastD ((doc.getD f.line []).take f.ch)
    ((doc.getD t.line []).drop t.ch) (splitNl text) (splitNl_ne_nil text) []
  refine ⟨r, ?_⟩
  unfold spliceDoc
  rw [List.append_assoc]
  have hlen : (doc.take f.line).length = f.line := by rw [List.length_take]; omega
  have hji := joinInsert_length ((doc.getD f.line []).take f.ch)
    ((doc.getD t.line []).drop t.ch) (splitNl text) (splitNl_ne_nil text)
  have hpos : 0 < (splitNl text).length :=
    List.length_pos.mpr (splitNl_ne_nil text)
  rw [List.getD_append_right _ _ _ _ (by omega)]
  rw [List.getD_append _ _ _ _ (by omega)]
  have hidx : f.line + (splitNl text).length - 1 - (doc.take f.line).length =
      (joinInsert ((doc.getD f.line []).take f.ch)
        ((doc.getD t.line []).drop t.ch) (splitNl text)).length - 1 := by
    omega
  rw [hidx, List.getD_eq_getElem?_getD, ← List.getLast?_eq_getElem?,
    ← List.getLastD_eq_getLast?]
  exact hr



lemma applyEditorOps_eq (e : EditorState) (f t : Pos) (link : List Char) :
    applyEditorOps e f t link =
      ⟨spliceDoc e.doc f t link, computeEndPos f link, computeEndPos f link,
        e.scrollLeft, e.scrollTop⟩ := rfl

/-- C8: a successful paste replaces exactly the selection range captured
when the paste event fired (not the selection as moved while the dialog was
open) with the generated link text, puts the cursor at the end of the
inserted link, restores the scroll offset read just before the text
manipulation, and modifies no other part of the document: the lines above
the captured range, the lines below it, the from-line prefix before the
selection and the to-line suffix after it are all preserved. -/
theorem success_paste_spec (genLink : String → String → String) (inp : HandlerInput)
    (start : MFolder) (mime ap nm targetPath : String)
    (hscope : isInScope inp.activeFilePath = true)
    (himg : inp.clipboardTypes.find? (fun t => strStartsWith t "image/") = some mime)
    (hstart : inp.startFolder = some start)
    (hres : (resolveAssets inp.vault (start :: inp.ancestors) start.path).1 = some ap)
    (hdialog : inp.dialogResult = some nm)
    (hup : getUniquePath (resolveAssets inp.vault (start :: inp.ancestors) start.path).2.1
      ap (safeBaseOf nm (defaultPasteBasename inp.date)) (chooseExt mime) = some targetPath)
    (hline : inp.editor.selFrom.line ≤ inp.editor.doc.length) :
    (handlePaste genLink inp).written = some targetPath ∧
    (handlePaste genLink inp).insertedLink = some (genLink targetPath inp.activeFilePath) ∧
    (handlePaste genLink inp).editor.doc =
      spliceDoc inp.editor.doc inp.editor.selFrom inp.editor.selTo
        (genLink targetPath inp.activeFilePath).data ∧
    (handlePaste genLink inp).editor.selFrom =
      computeEndPos inp.editor.selFrom (genLink targetPath inp.activeFilePath).data ∧
    (handlePaste genLink inp).editor.selTo =
      computeEndPos inp.editor.selFrom (genLink targetPath inp.activeFilePath).data ∧
    (handlePaste genLink inp).editor.scrollLeft = inp.scrollDuringLeft ∧
    (handlePaste genLink inp).editor.scrollTop = inp.scrollDuringTop ∧
    (handlePaste genLink inp).editor.doc.take inp.editor.selFrom.line =
      inp.editor.doc.take inp.editor.selFrom.line ∧
    (handlePaste genLink inp).editor.doc.drop
        (inp.editor.selFrom.line +
          (splitNl (genLink targetPath inp.activeFilePath).data).length) =
      inp.editor.doc.drop (inp.editor.selTo.line + 1) ∧
    (∃ r, (handlePaste genLink inp).editor.doc.getD inp.editor.selFrom.line [] =
      (inp.editor.doc.getD inp.editor.selFrom.line []).take inp.editor.selFrom.ch ++ r) ∧
    (∃ r, (handlePaste genLink inp).editor.doc.getD
        (inp.editor.selFrom.line +
          (splitNl (genLink targetPath inp.activeFilePath).data).length - 1) [] =
      r ++ (inp.editor.doc.getD inp.editor.selTo.line []).drop inp.editor.selTo.ch) := by
  have hne : inp.clipboardTypes ≠ [] := by
    intro hX; rw [hX] at himg; simp at himg
  obtain ⟨res1, rest1, hE⟩ : ∃ a b,
      resolveAssets inp.vault (start :: inp.ancestors) start.path = (a, b) :=
    ⟨_, _, rfl⟩
  obtain ⟨v1, ns1⟩ := rest1
  rw [hE] at hres hup
  simp only [Prod.fst, Prod.snd] at hres hup
  subst hres
  have hout : handlePaste genLink inp =
      ⟨v1.createBinary targetPath,
        applyEditorOps
          ⟨inp.editor.doc, inp.selDuringFrom, inp.selDuringTo,
            inp.scrollDuringLeft, inp.scrollDuringTop⟩
          inp.editor.selFrom inp.editor.selTo
          (genLink targetPath inp.activeFilePath).data,
        ns1, some targetPath, some (genLink targetPath inp.activeFilePath), true⟩ := by
    unfold handlePaste
    rw [hscope]
    simp only [Bool.true_eq_false, if_false, if_neg hne, himg, hstart, hdialog, hE, hup]
  rw [hout, applyEditorOps_eq]
  refine ⟨rfl, rfl, rfl, rfl, rfl, rfl, rfl, ?_, ?_, ?_, ?_⟩
  · exact spliceDoc_take inp.editor.doc _ _ _ hline
  · exact spliceDoc_drop inp.editor.doc _ _ _ hline
  · exact spliceDoc_fromLine inp.editor.doc _ _ _ hline
  · exact spliceDoc_lastLine inp.editor.doc _ _ _ hline





theorem success_paste_spec_witness :
    (handlePaste glC8 inpC8).written = some "Uni Notes/Math/assets/diagram.png" ∧
    (handlePaste glC8 inpC8).insertedLink = some linkC8 ∧
    (handlePaste glC8 inpC8).editor.doc =
      spliceDoc inpC8.editor.doc inpC8.editor.selFrom inpC8.editor.selTo linkC8.data ∧
    (handlePaste glC8 inpC8).editor.selFrom =
      computeEndPos inpC8.editor.selFrom linkC8.data ∧
    (handlePaste glC8 inpC8).editor.selTo =
      computeEndPos inpC8.editor.selFrom linkC8.data ∧
    (handlePaste glC8 inpC8).editor.scrollLeft = inpC8.scrollDuringLeft ∧
    (handlePaste glC8 inpC8).editor.scrollTop = inpC8.scrollDuringTop ∧
    (handlePaste glC8 inpC8).editor.doc.take inpC8.editor.selFrom.line =
      inpC8.editor.doc.take inpC8.editor.selFrom.line ∧
    (handlePaste glC8 inpC8).editor.doc.drop
        (inpC8.editor.selFrom.line + (splitNl linkC8.data).length) =
      inpC8.editor.doc.drop (inpC8.editor.selTo.line + 1) ∧
    (∃ r, (handlePaste glC8 inpC8).editor.doc.getD inpC8.editor.selFrom.line [] =
      (inpC8.editor.doc.getD inpC8.editor.selFrom.line []).take
        inpC8.editor.selFrom.ch ++ r) ∧
    (∃ r, (handlePaste glC8 inpC8).editor.doc.getD
        (inpC8.editor.selFrom.line + (splitNl linkC8.data).length - 1) [] =
      r ++ (inpC8.editor.doc.getD inpC8.editor.selTo.line []).drop
        inpC8.editor.selTo.ch) :=
  success_paste_spec glC8 inpC8
    ⟨"Uni Notes/Math", [⟨"assets", "Uni Notes/Math/assets", true⟩]⟩
    "image/png" "Uni Notes/Math/assets" "diagram"
    "Uni Notes/Math/assets/diagram.png"
    (by rfl) (by rfl) (by rfl) (by rfl) (by rfl) (by rfl) (by decide)

/-! ### C9: unmapped image MIME types -/

/-- C9: a MIME type that starts with `image/` but is not one of the eight
mapped types makes `getExtFromMime` return `null`, and the paste flow then
silently falls back to the `png` extension. -/
theorem getExtFromMime_unmapped (mime : String)
    (h1 : strStartsWith mime "image/" = true)
    (h2 : mime ∉ mappedMimes) :
    getExtFromMime mime = none ∧ chooseExt mime = "png" := by
  simp only [mappedMimes, List.mem_cons, List.mem_singleton, not_or] at h2
  obtain ⟨n1, n2, n3, n4, n5, n6, n7, n8⟩ := h2
  have hext : getExtFromMime mime = none := by
    unfold getExtFromMime
    rw [if_neg n1, if_neg n2, if_neg n3, if_neg n4, if_neg n5, if_neg n6,
      if_neg n7, if_neg n8.1]
  exact ⟨hext, by unfold chooseExt; rw [hext]; rfl⟩

theorem getExtFromMime_unmapped_witness :
    strStartsWith "image/bmp" "image/" = true ∧
    "image/bmp" ∉ mappedMimes ∧
    getExtFromMime "image/bmp" = none ∧ chooseExt "image/bmp" = "png" :=
  ⟨by decide, by decide,
    getExtFromMime_unmapped "image/bmp" (by decide) (by decide)⟩

/-! ### C10: confirming the dialog with an empty name -/

/-- C10: confirming the naming dialog (Save or Enter) with an input that is
empty after trimming does not cancel the paste: the promise resolves to the
non-null string `prefix + defaultBase`; only Cancel, Escape or dismissing
the modal resolve to `null`. -/
theorem namePromptModal_resolution (pfx defaultBase input : String)
    (h : strTrim input = "") :
    (modalFinish pfx defaultBase input initPrompt).resolution =
      some (some (pfx ++ defaultBase)) ∧
    (modalCancel initPrompt).resolution = some none ∧
    (modalDismiss initPrompt).resolution = some none := by
  refine ⟨?_, rfl, rfl⟩
  unfold modalFinish modalOnClose resolveOnce finishValue initPrompt
  simp [h]

theorem namePromptModal_resolution_witness :
    strTrim "   " = "" ∧
    ((modalFinish "note-" "Pasted image 20240101000000" "   " initPrompt).resolution =
      some (some ("note-" ++ "Pasted image 20240101000000")) ∧
    (modalCancel initPrompt).resolution = some none ∧
    (modalDismiss initPrompt).resolution = some none) :=
  ⟨by rfl,
    namePromptModal_resolution "note-" "Pasted image 20240101000000" "   " (by rfl)⟩

end PasteAssets
